import Mathlib

/-!
Verification development for the nation reset-time scanner.

The definitions below are a shallow embedding of the repository's core
pipeline (`backend/src/services/scanner.js`, `services/apiClient.js`,
`utils/rateLimiter.js`):

* storage state (`St`) models the `scan_history`, `reset_times` and
  `nations` tables plus the in-memory logger;
* `processNation` / `processResults` embed `NationScanner.processResults`
  with an explicit fault oracle standing for storage exceptions, so the
  per-entity `try`/`catch` boundaries are visible as total functions;
* `recordResetTime` embeds the internally-caught `INSERT ... ON CONFLICT`
  upsert of `reset_times`;
* `fetchSpecificNations` embeds the 100-id sub-batching loop of
  `PnWApiClient.fetchSpecificNations`, with the network modelled as a
  function from an id batch to an `Except` outcome;
* `RateLimiter.waitIfNeeded` embeds the buffer check of
  `utils/rateLimiter.js` (JS truthiness of `resetTime` included);
* `requestWithRetry` embeds the axios response interceptor
  (`handleApiError`), which re-issues a throttled request through the
  same interceptor;
* the base64 cursor functions embed the pagination-token handling of
  `initializeNations` / `fetchNationsBatch`.
-/

/-- A nation row as returned by the provider fetch
(`id`, `espionage_available`, `last_active`). -/
structure Nation where
  id : Nat
  espionage_available : Bool
  last_active : Int
deriving Repr, DecidableEq

/-- A `reset_times` row payload: `reset_time` (time of day, ms) and
`detected_at` (wall-clock ms), both derived from the detection moment. -/
structure ResetData where
  reset_time : Nat
  detected_at : Nat
deriving Repr, DecidableEq

/-- In-memory logger lines relevant to the claims: the per-entity catch in
`processResults`, the catch inside `recordResetTime`, and the per-batch
catch in `fetchSpecificNations`. -/
inductive LogMsg where
  | processFail (nationId : Nat)
  | resetRecordFail (nationId : Nat)
  | fetchFail (loggedIds : List Nat)
deriving Repr, DecidableEq

/-- Storage state: per-nation append-only scan history (flags in
observation order), the `reset_times` table keyed by nation id, the
`nations.last_active` column, a count of completed storage writes, and the
logger output. -/
structure St where
  scan_history : Nat → List Bool
  reset_times : List (Nat × ResetData)
  last_active : Nat → Option Int
  writes : Nat
  log : List LogMsg

/-- The freshly migrated database: all tables empty. -/
def emptySt : St :=
  ⟨fun _ => [], [], fun _ => none, 0, []⟩

/-- Fault oracle injecting storage exceptions per nation id: the last-scan
SELECT, the scan-history INSERT, the reset-times upsert, and the nations
UPDATE can each throw. -/
structure Faults where
  readFail : Nat → Bool
  appendFail : Nat → Bool
  resetFail : Nat → Bool
  updateFail : Nat → Bool

/-- No storage operation fails. -/
def noFaults : Faults :=
  ⟨fun _ => false, fun _ => false, fun _ => false, fun _ => false⟩

/-- `INSERT ... ON CONFLICT (nation_id) DO UPDATE` on the `reset_times`
table: overwrite the row with this key if present, append otherwise. -/
def upsertAssoc (t : List (Nat × ResetData)) (nid : Nat) (d : ResetData) :
    List (Nat × ResetData) :=
  if t.any (fun p => p.1 == nid) then
    t.map (fun p => if p.1 = nid then (nid, d) else p)
  else t ++ [(nid, d)]

/-- `INSERT INTO scan_history (nation_id, espionage_available)`. -/
def appendScanRecord (st : St) (nid : Nat) (flag : Bool) : St :=
  { st with
    scan_history := fun i =>
      if i = nid then st.scan_history i ++ [flag] else st.scan_history i
    writes := st.writes + 1 }

/-- The reset payload built from the detection moment `now` (the code uses
`new Date()` for both the HH:MM:SS time-of-day and `detected_at`). -/
def mkResetData (now : Nat) : ResetData :=
  ⟨now % 86400000, now⟩

/-- `NationScanner.recordResetTime`: upsert the reset row; the
`try`/`catch` inside the function swallows a storage failure, logging it
and returning normally either way. -/
def recordResetTime (f : Faults) (now : Nat) (st : St) (nid : Nat) : St :=
  if f.resetFail nid then
    { st with log := st.log ++ [LogMsg.resetRecordFail nid] }
  else
    { st with
      reset_times := upsertAssoc st.reset_times nid (mkResetData now)
      writes := st.writes + 1 }

/-- `UPDATE nations SET last_active = $1, updated_at = NOW()`. -/
def updateNation (st : St) (n : Nation) : St :=
  { st with
    last_active := fun i =>
      if i = n.id then some n.last_active else st.last_active i
    writes := st.writes + 1 }

/-- One iteration of the `processResults` loop body for nation `n`:
read the latest prior scan, append the new scan, detect a false→true
transition against the prior flag, update the nation row. The returned
Bool is true when a storage exception escaped to the per-entity catch
(`recordResetTime` never lets one escape). -/
def processNation (f : Faults) (now : Nat) (st : St) (n : Nation) :
    St × Bool :=
  if f.readFail n.id then (st, true)
  else
    let prior := (st.scan_history n.id).getLast?
    if f.appendFail n.id then (st, true)
    else
      let st1 := appendScanRecord st n.id n.espionage_available
      let st2 :=
        if prior = some false ∧ n.espionage_available = true then
          recordResetTime f now st1 n.id
        else st1
      if f.updateFail n.id then (st2, true)
      else (updateNation st2 n, false)

/-- `NationScanner.processResults`: fold the per-entity step over the
fetched batch; an exception from one entity is caught and logged and the
loop continues with the next entity. -/
def processResults (f : Faults) (now : Nat) (st : St) (ns : List Nation) :
    St :=
  ns.foldl
    (fun acc n =>
      let r := processNation f now acc n
      if r.2 then { r.1 with log := r.1.log ++ [LogMsg.processFail n.id] }
      else r.1)
    st

/-- A sequence of fault-free scan cycles run from the fresh database; each
cycle carries its own wall-clock moment and fetched batch. -/
def runCycles (cycles : List (Nat × List Nation)) : St :=
  cycles.foldl (fun st c => processResults noFaults c.1 st c.2) emptySt

/-- A `reset_times` row exists for nation `i`. -/
def resetExists (st : St) (i : Nat) : Bool :=
  st.reset_times.any (fun p => p.1 == i)

/-- The flag sequence contains two adjacent observations false-then-true. -/
def hasFT : List Bool → Bool
  | a :: b :: t => (!a && b) || hasFT (b :: t)
  | _ => false

/-- The sub-batch splitter of `fetchSpecificNations`:
`for (let i = 0; i < ids.length; i += batchSize) push(ids.slice(i, i + batchSize))`. -/
def toBatches : Nat → List α → List (List α)
  | 0, _ => []
  | _, [] => []
  | s + 1, x :: xs =>
      (x :: xs).take (s + 1) :: toBatches (s + 1) ((x :: xs).drop (s + 1))
termination_by _ l => l.length
decreasing_by
  simp only [List.length_drop, List.length_cons]
  omega

/-- One logger line of the per-batch catch in `fetchSpecificNations`:
the code logs `batch.slice(0, 5)` plus the error message. -/
structure FetchLog where
  loggedIds : List Nat
  message : String
deriving Repr, DecidableEq

/-- Outcome of `fetchSpecificNations`: accumulated nation rows, logger
lines from failed sub-batches, and counters for network calls issued and
`rateLimiter.waitIfNeeded()` invocations (one of each per sub-batch). -/
structure FetchResult where
  data : List Nation
  logs : List FetchLog
  calls : Nat
  waits : Nat
deriving Repr, DecidableEq

/-- One iteration of the `fetchSpecificNations` loop: wait on the rate
limiter and POST the query for one sub-batch; a successful response may
lack the `data.nations.data` path (`Except.ok none`), in which case
nothing is appended; a thrown error is caught per batch and logged with
the first five ids of the batch. -/
def fetchBatchStep (net : List Nat → Except String (Option (List Nation)))
    (acc : FetchResult) (batch : List Nat) : FetchResult :=
  match net batch with
  | Except.ok (some d) =>
      { acc with
        data := acc.data ++ d
        calls := acc.calls + 1
        waits := acc.waits + 1 }
  | Except.ok none =>
      { acc with calls := acc.calls + 1, waits := acc.waits + 1 }
  | Except.error e =>
      { acc with
        logs := acc.logs ++ [⟨batch.take 5, e⟩]
        calls := acc.calls + 1
        waits := acc.waits + 1 }

/-- `PnWApiClient.fetchSpecificNations`: split the ids into sub-batches of
at most 100 and run the per-batch step over all of them. -/
def fetchSpecificNations
    (net : List Nat → Except String (Option (List Nation)))
    (nationIds : List Nat) : FetchResult :=
  (toBatches 100 nationIds).foldl (fetchBatchStep net) ⟨[], [], 0, 0⟩

/-- `NationScanner.performScan` after the candidate query: if the
candidate set is empty the cycle ends with no further action; otherwise
the candidate ids are fetched and the results processed. Returns the
storage state and the number of API calls made. -/
def performScan (net : List Nat → Except String (Option (List Nation)))
    (f : Faults) (now : Nat) (nationsToScan : List Nat) (st : St) :
    St × Nat :=
  if nationsToScan.length = 0 then (st, 0)
  else
    let fr := fetchSpecificNations net nationsToScan
    let st1 :=
      { st with log := st.log ++ fr.logs.map (fun fl => LogMsg.fetchFail fl.loggedIds) }
    (processResults f now st1 fr.data, fr.calls)

/-- `utils/rateLimiter.js` state; the constructor sets
`remaining = 1000`, `resetTime = null`, `limit = 1000`, `minBuffer = 10`. -/
structure RateLimiter where
  remaining : Int := 1000
  resetTime : Option Nat := none
  limit : Int := 1000
  minBuffer : Int := 10
deriving Repr, DecidableEq

/-- `RateLimiter.update`: unconditional overwrite from response metadata;
`resetTime` is stored in milliseconds (`reset * 1000`). -/
def RateLimiter.update (rl : RateLimiter) (remaining : Int) (reset : Nat)
    (lim : Int) : RateLimiter :=
  { rl with remaining := remaining, resetTime := some (reset * 1000), limit := lim }

/-- JS truthiness of the `resetTime` field: `null` and `0` are falsy. -/
def truthyNat : Option Nat → Bool
  | none => false
  | some v => v != 0

/-- `RateLimiter.waitIfNeeded`, returning the number of milliseconds
slept: if `remaining <= minBuffer && resetTime`, compute
`waitTime = resetTime - Date.now()` and sleep when positive; otherwise
return immediately. -/
def RateLimiter.waitIfNeeded (rl : RateLimiter) (now : Nat) : Nat :=
  if rl.remaining ≤ rl.minBuffer ∧ truthyNat rl.resetTime = true then
    let rt := rl.resetTime.getD 0
    if rt > now then rt - now else 0
  else 0

/-- `RateLimiter.canMakeRequest`: `remaining > minBuffer`. -/
def RateLimiter.canMakeRequest (rl : RateLimiter) : Bool :=
  decide (rl.remaining > rl.minBuffer)

/-- One provider response to an attempt of a request: success, a 429 with
an optional `x-ratelimit-resetafter` value in seconds, or another error. -/
inductive ApiResp (α : Type) where
  | ok (d : α)
  | throttled (retryAfterSecs : Option Nat)
  | err (e : String)
deriving Repr, DecidableEq

/-- The axios response interceptor `handleApiError` of `PnWApiClient`,
run against the stream of responses the provider would give to successive
attempts: a 429 sleeps `(retryAfter or 60) * 1000` ms and re-issues the
request through the same axios instance, so the interceptor runs again on
the next response; any other error is re-thrown. Returns the final
outcome and the list of sleep durations, or `none` when every response in
the stream is throttled (the recursion never produces an answer). -/
def requestWithRetry {α : Type} :
    List (ApiResp α) → Option (Except String α × List Nat)
  | [] => none
  | ApiResp.ok d :: _ => some (Except.ok d, [])
  | ApiResp.err e :: _ => some (Except.error e, [])
  | ApiResp.throttled ra :: rest =>
      match requestWithRetry rest with
      | none => none
      | some (out, sleeps) => some (out, (ra.getD 60) * 1000 :: sleeps)

/-- The error carried by a second throttled response in the spec-worded
retry model. -/
def rateLimitedMsg : String := "rate limited"

/-- Retry behaviour as the spec words it, for comparison with
`requestWithRetry`: a throttled response sleeps the provider-supplied
delay (default 60 s) and retries the identical request exactly once; a
second throttled response propagates as a failure. -/
def requestWithSingleRetry {α : Type} :
    List (ApiResp α) → Option (Except String α × List Nat)
  | [] => none
  | ApiResp.ok d :: _ => some (Except.ok d, [])
  | ApiResp.err e :: _ => some (Except.error e, [])
  | ApiResp.throttled ra :: rest =>
      match rest with
      | [] => none
      | ApiResp.ok d :: _ => some (Except.ok d, [(ra.getD 60) * 1000])
      | ApiResp.err e :: _ => some (Except.error e, [(ra.getD 60) * 1000])
      | ApiResp.throttled _ :: _ =>
          some (Except.error rateLimitedMsg, [(ra.getD 60) * 1000])

/-- The standard base64 alphabet. -/
def b64Alphabet : List Char :=
  "ABCDEFGHIJKLMNOPQRSTUVWXYZabcdefghijklmnopqrstuvwxyz0123456789+/".toList

/-- Index of a character in the base64 alphabet. -/
def b64Val (c : Char) : Option Nat :=
  b64Alphabet.findIdx? (fun x => x = c)

/-- Character at an index of the base64 alphabet. -/
def b64Char (n : Nat) : Char :=
  b64Alphabet.getD n 'A'

/-- Turn groups of four 6-bit values into bytes (`Buffer.from(s, 'base64')`). -/
def b64DecodeVals : List Nat → List Nat
  | a :: b :: c :: d :: rest =>
      let n := ((a * 64 + b) * 64 + c) * 64 + d
      n / 65536 :: n / 256 % 256 :: n % 256 :: b64DecodeVals rest
  | [a, b, c] =>
      let n := (a * 64 + b) * 64 + c
      [n / 1024, n / 4 % 256]
  | [a, b] => [(a * 64 + b) / 16]
  | _ => []

/-- Base64-decode a string to the characters of its decoded bytes. -/
def base64Decode (s : String) : List Char :=
  (b64DecodeVals ((s.toList.filter (fun c => c ≠ '=')).filterMap b64Val)).map
    Char.ofNat

/-- Turn a byte list into base64 characters with `=` padding
(`Buffer.from(s).toString('base64')`). -/
def b64EncodeBytes : List Nat → List Char
  | a :: b :: c :: rest =>
      let n := (a * 256 + b) * 256 + c
      b64Char (n / 262144) :: b64Char (n / 4096 % 64) :: b64Char (n / 64 % 64) ::
        b64Char (n % 64) :: b64EncodeBytes rest
  | [a, b] =>
      let n := (a * 256 + b) * 4
      [b64Char (n / 4096), b64Char (n / 64 % 64), b64Char (n % 64), '=']
  | [a] =>
      let n := a * 16
      [b64Char (n / 64), b64Char (n % 64), '=', '=']
  | [] => []

/-- Base64-encode a string of bytes. -/
def base64Encode (s : String) : String :=
  String.mk (b64EncodeBytes (s.toList.map Char.toNat))

/-- JS `parseInt` restricted to what the cursor code can feed it: leading
decimal digits parse to a number, anything else (including the string for
`undefined`) is `NaN`, modelled as `none`. -/
def parseIntJS (s : List Char) : Option Nat :=
  let digits := s.takeWhile (fun c => c.isDigit)
  if digits.isEmpty then none
  else some (digits.foldl (fun acc c => acc * 10 + (c.toNat - 48)) 0)

/-- JS `String.prototype.split` with a single-character separator. -/
def splitOnChar (sep : Char) : List Char → List (List Char)
  | [] => [[]]
  | c :: cs =>
      let r := splitOnChar sep cs
      if c = sep then [] :: r
      else
        match r with
        | [] => [[c]]
        | h :: t => (c :: h) :: t

/-- The separator the cursor parser splits on. -/
def colonChar : Char := ':'

/-- The structured payload `fetchNationsBatch` rebuilds cursors from. -/
def arrayConnStr : String := "arrayconnection:"

/-- The cursor-to-offset computation of `initializeNations`:
`parseInt(Buffer.from(cursor, 'base64').toString().split(':')[1])`;
`none` models `NaN` (`[1]` being `undefined` included). -/
def cursorToOffset (cursor : String) : Option Nat :=
  ((splitOnChar colonChar (base64Decode cursor)).get? 1).bind parseIntJS

/-- The `after` variable `fetchNationsBatch` actually sends:
`offset > 0 ? Buffer.from('arrayconnection:' + offset).toString('base64') : null`;
with `offset = NaN` the comparison is false and `null` is sent. -/
def offsetToAfter : Option Nat → Option String
  | none => none
  | some o =>
      if o > 0 then some (base64Encode (arrayConnStr ++ toString o)) else none

/-- The pagination token the next page request carries, as the code
computes it: `initializeNations` parses the stored `endCursor` into an
offset (a falsy cursor becomes offset 0) and `fetchNationsBatch` rebuilds
a token from that offset. -/
def nextPageAfterToken : Option String → Option String
  | none => offsetToAfter (some 0)
  | some c =>
      if c = "" then offsetToAfter (some 0)
      else offsetToAfter (cursorToOffset c)

/-- Token handling as the spec words it: the stored provider token is
replayed verbatim on the next page request. -/
def nextPageAfterTokenVerbatim : Option String → Option String :=
  fun c => c

/-- A perfectly valid provider cursor payload in an encoding the parser
does not expect. -/
def offsetPayload : String := "offset=500"

/-- A provider cursor whose decoded payload is `offset=500`. -/
def altFormatCursor : String := base64Encode offsetPayload

/-- A provider cursor in the encoding the parser happens to expect
(decoded payload `arrayconnection:500`). -/
def canonicalCursor : String := base64Encode (arrayConnStr ++ toString 500)

/-- The detection invariant: a reset row exists exactly for entities whose
history contains an adjacent false→true pair. -/
def resetInv (st : St) : Prop :=
  ∀ i, resetExists st i = hasFT (st.scan_history i)

/-- The entity `i` sees none of the storage faults its processing can
raise to the per-entity catch. -/
def noFaultsFor (f : Faults) (i : Nat) : Prop :=
  f.readFail i = false ∧ f.appendFail i = false ∧ f.updateFail i = false

/-- Processing entity `i` raises a storage exception to the per-entity
catch. -/
def faultyFor (f : Faults) (i : Nat) : Prop :=
  f.readFail i = true ∨ f.appendFail i = true ∨ f.updateFail i = true

/-- Fault oracle for the isolation witness: only entity 2's nation-row
update fails. -/
def wFaults : Faults :=
  ⟨fun _ => false, fun _ => false, fun _ => false, fun i => i == 2⟩

/-- The faulty entity of the isolation witness. -/
def wNationA : Nation := ⟨2, true, 0⟩

/-- The fault-free entity of the isolation witness. -/
def wNationB : Nation := ⟨1, true, 0⟩

/-- Fault oracle where only the reset-times upsert for the given entity
fails. -/
def resetOnlyFaults (bad : Nat) : Faults :=
  ⟨fun _ => false, fun _ => false, fun i => i == bad, fun _ => false⟩

/-- Prior storage state of the contained-failure witness: nation 5 was
last seen with the flag down. -/
def wSt : St :=
  { emptySt with scan_history := fun i => if i = 5 then [false] else [] }

/-- The nation of the contained-failure witness. -/
def wNationC : Nation := ⟨5, true, 7⟩

/-- Network stub for the batching witness. -/
def wNet : List Nat → Except String (Option (List Nation)) :=
  fun _ => Except.ok none

/-- Id list of the batching witness. -/
def wIds : List Nat := [1, 2, 3]

/-- C10: `fetchSpecificNations` on an empty id list returns an empty
result with zero network calls and zero rate-limiter waits: the sub-batch
loop runs over zero batches. -/
theorem fetch_empty_ids :
    ∀ net : List Nat → Except String (Option (List Nation)),
      fetchSpecificNations net [] = ⟨[], [], 0, 0⟩ := by
  intro net
  have h : toBatches 100 ([] : List Nat) = [] := by
    simp [toBatches]
  simp [fetchSpecificNations, h]

/-- C8: when the candidate set is empty, `performScan` ends the cycle
immediately: the storage state is returned untouched (so zero writes, no
scan-history append, no reset upsert, no nation update) and zero API
calls are made. -/
theorem empty_scan_no_effects :
    ∀ (net : List Nat → Except String (Option (List Nation)))
      (f : Faults) (now : Nat) (st : St),
      performScan net f now [] st = (st, 0) := by
  intro net f now st
  rfl

/-- C5: with `resetAt` known, `waitIfNeeded` blocks for
`max(0, resetAt − now)` (truncated subtraction) exactly when
`remaining ≤ 10`; with `resetAt` unknown it returns immediately even when
the budget is exhausted; in the scenario `remaining = 5`,
`resetAt = now + 30s` it blocks for the full 30 seconds. -/
theorem wait_if_needed_blocks :
    (∀ (rem lim : Int) (rt now : Nat),
        RateLimiter.waitIfNeeded ⟨rem, some rt, lim, 10⟩ now =
          if rem ≤ 10 then rt - now else 0)
    ∧ (∀ (rem lim : Int) (now : Nat),
        RateLimiter.waitIfNeeded ⟨rem, none, lim, 10⟩ now = 0)
    ∧ (∀ (lim : Int) (now : Nat),
        RateLimiter.waitIfNeeded ⟨5, some (now + 30000), lim, 10⟩ now = 30000) := by
  refine ⟨?_, ?_, ?_⟩
  · intro rem lim rt now
    by_cases hrem : rem ≤ 10
    · by_cases hrt : rt = 0
      · subst hrt
        simp [RateLimiter.waitIfNeeded, truthyNat, hrem]
      · simp only [RateLimiter.waitIfNeeded, truthyNat]
        have ht : (rt != 0) = true := by
          simpa using hrt
        simp only [hrem, ht, and_self, if_true, true_and, Option.getD_some]
        split
        · rfl
        · omega
    · simp [RateLimiter.waitIfNeeded, truthyNat, hrem]
  · intro rem lim now
    simp [RateLimiter.waitIfNeeded, truthyNat]
  · intro lim now
    have h5 : (5 : Int) ≤ 10 := by norm_num
    simp only [RateLimiter.waitIfNeeded, truthyNat]
    have ht : (now + 30000 != 0) = true := by
      simp
    simp only [h5, ht, and_self, if_true, true_and, Option.getD_some]
    split
    · omega
    · omega

/-- C2: the interceptor retries every throttled response, not just one —
after two consecutive 429s (no retry-after header) it sleeps 60 s twice
and still returns the third response's success, where the spec-worded
single-retry model fails; and against an all-throttled stream of any
length it never produces an outcome (unbounded retry). -/
theorem throttle_retry_unbounded :
    requestWithRetry
        [ApiResp.throttled none, ApiResp.throttled none, ApiResp.ok 42]
      = some (Except.ok 42, [60000, 60000])
    ∧ (∀ n : Nat,
        requestWithRetry
            (List.replicate n (ApiResp.throttled none) : List (ApiResp Nat))
          = none)
    ∧ requestWithSingleRetry
        [ApiResp.throttled none, ApiResp.throttled none, ApiResp.ok 42]
      = some (Except.error rateLimitedMsg, [60000]) := by
  refine ⟨rfl, ?_, rfl⟩
  intro n
  induction n with
  | zero => rfl
  | succ k ih =>
      rw [List.replicate_succ]
      simp [requestWithRetry, ih]

/-- C3: the pagination token is not replayed verbatim: the code decodes
the stored cursor, extracts the numeric offset after the colon, and
rebuilds a token from it. On a valid provider cursor whose payload is
`offset=500` the parse yields `NaN` and the next request carries no token
at all; on a cursor in the expected `arrayconnection:N` encoding the sent
token only coincides with the stored one by re-deriving it; the verbatim
model of the spec returns the stored token unchanged. -/
theorem cursor_not_opaque :
    (nextPageAfterToken (some altFormatCursor) = none
      ∧ nextPageAfterTokenVerbatim (some altFormatCursor) = some altFormatCursor
      ∧ some altFormatCursor ≠ (none : Option String))
    ∧ nextPageAfterToken (some canonicalCursor) = some canonicalCursor
    ∧ cursorToOffset canonicalCursor = some 500 := by
  refine ⟨⟨by decide, rfl, by decide⟩, by decide, by decide⟩

/-- Appending one observation to a flag history: a false→true adjacency
appears in the extended history exactly when it was already there or the
previous last flag was false and the new one is true. -/
lemma hasFT_append (h : List Bool) (f : Bool) :
    hasFT (h ++ [f]) = (hasFT h || ((h.getLast? == some false) && f)) := by
  induction h with
  | nil => cases f <;> simp [hasFT]
  | cons a t ih =>
      cases t with
      | nil => cases a <;> cases f <;> simp [hasFT]
      | cons b t2 =>
          simp only [List.cons_append] at ih ⊢
          show ((!a && b) || hasFT (b :: (t2 ++ [f])))
            = ((!a && b) || hasFT (b :: t2) || ((a :: b :: t2).getLast? == some false && f))
          rw [ih, List.getLast?_cons_cons, Bool.or_assoc]

/-- Key membership after a `reset_times` upsert: the upserted key is
present, every other key's presence is unchanged. -/
lemma any_key_upsertAssoc (t : List (Nat × ResetData)) (nid i : Nat)
    (d : ResetData) :
    (upsertAssoc t nid d).any (fun p => p.1 == i)
      = (t.any (fun p => p.1 == i) || (nid == i)) := by
  unfold upsertAssoc
  split
  · next hmem =>
      rw [List.any_map]
      have hstep :
          (fun p : Nat × ResetData =>
              ((if p.1 = nid then ((nid, d) : Nat × ResetData) else p).1 == i))
            = fun p : Nat × ResetData => p.1 == i := by
        funext p
        by_cases hp : p.1 = nid
        · rw [if_pos hp, hp]
        · rw [if_neg hp]
      show t.any (fun p =>
          ((if p.1 = nid then ((nid, d) : Nat × ResetData) else p).1 == i))
        = (t.any (fun p => p.1 == i) || (nid == i))
      rw [hstep]
      by_cases hni : nid = i
      · subst hni
        have hrefl : (nid == nid) = true := by simp
        rw [hrefl, Bool.or_true, hmem]
      · have : (nid == i) = false := by simpa using hni
        rw [this, Bool.or_false]
  · next hmem =>
      rw [List.any_append]
      simp

/-- The per-entity step under no faults, written out. -/
lemma processNation_noFaults (now : Nat) (st : St) (n : Nation) :
    processNation noFaults now st n =
      (updateNation
        (if (st.scan_history n.id).getLast? = some false ∧
            n.espionage_available = true then
          recordResetTime noFaults now
            (appendScanRecord st n.id n.espionage_available) n.id
        else appendScanRecord st n.id n.espionage_available) n, false) := by
  simp [processNation, noFaults]

/-- `recordResetTime` with no faults is the plain upsert. -/
lemma recordResetTime_noFaults (now : Nat) (st : St) (nid : Nat) :
    recordResetTime noFaults now st nid =
      { st with
        reset_times := upsertAssoc st.reset_times nid (mkResetData now)
        writes := st.writes + 1 } := by
  simp [recordResetTime, noFaults]

/-- Fold step of `processResults`. -/
lemma processResults_cons (f : Faults) (now : Nat) (st : St) (n : Nation)
    (t : List Nation) :
    processResults f now st (n :: t) =
      processResults f now
        (if (processNation f now st n).2 then
          { (processNation f now st n).1 with
            log := (processNation f now st n).1.log ++ [LogMsg.processFail n.id] }
        else (processNation f now st n).1) t := rfl

/-- One fault-free per-entity step preserves the detection invariant. -/
lemma processNation_resetInv (now : Nat) (st : St) (n : Nation)
    (h : resetInv st) : resetInv (processNation noFaults now st n).1 := by
  intro i
  rw [processNation_noFaults]
  by_cases hc : (st.scan_history n.id).getLast? = some false ∧
      n.espionage_available = true
  · rw [if_pos hc]
    simp only [resetExists, updateNation, recordResetTime_noFaults,
      appendScanRecord]
    rw [any_key_upsertAssoc]
    by_cases hi : i = n.id
    · subst hi
      have h1 : (n.id == n.id) = true := by simp
      rw [h1, Bool.or_true, if_pos rfl, hasFT_append, hc.2]
      have h2 : ((st.scan_history n.id).getLast? == some false) = true := by
        simp [hc.1]
      rw [h2]
      simp
    · have h1 : (n.id == i) = false := by
        simp
        omega
      rw [h1, Bool.or_false, if_neg (by omega : ¬ i = n.id)]
      exact h i
  · rw [if_neg hc]
    simp only [resetExists, updateNation, appendScanRecord]
    by_cases hi : i = n.id
    · subst hi
      rw [if_pos rfl, hasFT_append]
      have hzero : (((st.scan_history n.id).getLast? == some false) &&
          n.espionage_available) = false := by
        by_cases h1 : (st.scan_history n.id).getLast? = some false
        · have h2 : n.espionage_available = false := by
            cases he : n.espionage_available
            · rfl
            · exact absurd ⟨h1, he⟩ hc
          rw [h2, Bool.and_false]
        · have h3 : ((st.scan_history n.id).getLast? == some false) = false := by
            simpa using h1
          rw [h3, Bool.false_and]
      rw [hzero, Bool.or_false]
      exact h n.id
    · rw [if_neg hi]
      exact h i

/-- A fault-free batch preserves the detection invariant. -/
lemma processResults_resetInv (now : Nat) (st : St) (ns : List Nation)
    (h : resetInv st) : resetInv (processResults noFaults now st ns) := by
  induction ns generalizing st with
  | nil => exact h
  | cons n t ih =>
      rw [processResults_cons, processNation_noFaults]
      exact ih _ (by
        have := processNation_resetInv now st n h
        rw [processNation_noFaults] at this
        exact this)

/-- C1: over any sequence of fault-free scan cycles from a fresh database,
a reset row exists for entity `i` exactly when `i`'s scan history contains
two adjacent observations false-then-true; in particular a first-ever
observation with flag true alone writes no reset row. -/
theorem reset_invariant_iff :
    (∀ (cycles : List (Nat × List Nation)) (i : Nat),
        resetExists (runCycles cycles)
          i = hasFT ((runCycles cycles).scan_history i))
    ∧ (∀ (i : Nat) (la : Int) (now : Nat),
        (runCycles [(now, [⟨i, true, la⟩])]).reset_times = []) := by
  constructor
  · have base : resetInv emptySt := by
      intro i
      simp [resetExists, emptySt, hasFT]
    have main : ∀ (cs : List (Nat × List Nation)) (st : St), resetInv st →
        resetInv (cs.foldl (fun st c => processResults noFaults c.1 st c.2) st) := by
      intro cs
      induction cs with
      | nil => intro st h; exact h
      | cons c t ih =>
          intro st h
          exact ih _ (processResults_resetInv _ _ _ h)
    intro cycles i
    exact main cycles emptySt base i
  · intro i la now
    show (processResults noFaults now emptySt [⟨i, true, la⟩]).reset_times = []
    rw [processResults_cons, processNation_noFaults]
    simp [processResults, processNation_noFaults, updateNation,
      appendScanRecord, emptySt]

/-- An upsert leaves its key present. -/
lemma upsertAssoc_any_self (t : List (Nat × ResetData)) (nid : Nat)
    (d : ResetData) :
    (upsertAssoc t nid d).any (fun p => p.1 == nid) = true := by
  rw [any_key_upsertAssoc]
  simp

/-- Overwriting a key no row carries is the identity on the table. -/
lemma map_overwrite_of_no_key (t : List (Nat × ResetData)) (nid : Nat)
    (d : ResetData) (h : t.any (fun p => p.1 == nid) = false) :
    t.map (fun p => if p.1 = nid then (nid, d) else p) = t := by
  induction t with
  | nil => rfl
  | cons p ps ih =>
      simp only [List.any_cons, Bool.or_eq_false_iff] at h
      have hp : ¬ p.1 = nid := by simpa using h.1
      simp only [List.map_cons, if_neg hp, ih h.2]

/-- The `ON CONFLICT` upsert is idempotent. -/
lemma upsertAssoc_idem (t : List (Nat × ResetData)) (nid : Nat)
    (d : ResetData) :
    upsertAssoc (upsertAssoc t nid d) nid d = upsertAssoc t nid d := by
  have hmem := upsertAssoc_any_self t nid d
  conv_lhs => rw [upsertAssoc]
  rw [if_pos hmem]
  unfold upsertAssoc
  split
  · rw [List.map_map]
    apply List.map_congr_left
    intro p _
    show (if (if p.1 = nid then ((nid, d) : Nat × ResetData) else p).1 = nid
        then ((nid, d) : Nat × ResetData)
        else if p.1 = nid then ((nid, d) : Nat × ResetData) else p)
      = if p.1 = nid then (nid, d) else p
    by_cases hp : p.1 = nid
    · simp [hp]
    · simp [hp]
  · next hno =>
      have hno' : t.any (fun p => p.1 == nid) = false := by
        cases hb : t.any (fun p => p.1 == nid)
        · rfl
        · exact absurd hb hno
      rw [List.map_append, map_overwrite_of_no_key t nid d hno']
      simp

/-- Row keys after an upsert: unchanged when the key was present,
extended by the key otherwise. -/
lemma upsertAssoc_keys (t : List (Nat × ResetData)) (nid : Nat)
    (d : ResetData) :
    (upsertAssoc t nid d).map Prod.fst
      = if t.any (fun p => p.1 == nid) then t.map Prod.fst
        else t.map Prod.fst ++ [nid] := by
  unfold upsertAssoc
  split
  · next hmem =>
      rw [List.map_map]
      apply List.map_congr_left
      intro p _
      show (if p.1 = nid then ((nid, d) : Nat × ResetData) else p).1 = p.1
      by_cases hp : p.1 = nid
      · rw [if_pos hp, hp]
      · rw [if_neg hp]
  · next hno =>
      rw [List.map_append]
      rfl

/-- Row count for a key in terms of the key list. -/
lemma countP_key (t : List (Nat × ResetData)) (k : Nat) :
    t.countP (fun p => p.1 == k) = (t.map Prod.fst).count k := by
  rw [List.count, List.countP_map]
  rfl

/-- C6: the reset upsert is idempotent and keyed uniquely on the entity
id: re-upserting the identical row changes nothing; on a well-keyed table
the keys stay well-keyed, exactly one row carries the upserted key, and
an existing key is overwritten in place while a fresh key appends one
row; re-processing the identical (false, true) observation pair in two
cycles leaves exactly the single unchanged reset row. -/
theorem reset_upsert_idempotent :
    (∀ (t : List (Nat × ResetData)) (nid : Nat) (d : ResetData),
        upsertAssoc (upsertAssoc t nid d) nid d = upsertAssoc t nid d)
    ∧ (∀ (t : List (Nat × ResetData)) (nid : Nat) (d : ResetData),
        (t.map Prod.fst).Nodup →
          ((upsertAssoc t nid d).map Prod.fst).Nodup
          ∧ (upsertAssoc t nid d).countP (fun p => p.1 == nid) = 1
          ∧ (upsertAssoc t nid d).length
              = if t.any (fun p => p.1 == nid) then t.length
                else t.length + 1)
    ∧ (∀ (i : Nat) (la la2 : Int) (now : Nat),
        (runCycles
            [(now, [⟨i, false, la⟩, ⟨i, true, la2⟩]),
              (now, [⟨i, false, la⟩, ⟨i, true, la2⟩])]).reset_times
          = [(i, mkResetData now)]) := by
  refine ⟨upsertAssoc_idem, ?_, ?_⟩
  · intro t nid d hwf
    refine ⟨?_, ?_, ?_⟩
    · rw [upsertAssoc_keys]
      split
      · exact hwf
      · next hno =>
          have hno' : t.any (fun p => p.1 == nid) = false := by
            cases hb : t.any (fun p => p.1 == nid)
            · rfl
            · exact absurd hb hno
          have hnotmem : nid ∉ t.map Prod.fst := by
            intro hmem
            obtain ⟨p, hp, hp1⟩ := List.mem_map.mp hmem
            have : t.any (fun p => p.1 == nid) = true :=
              List.any_eq_true.mpr ⟨p, hp, by simp [hp1]⟩
            rw [this] at hno'
            cases hno'
          exact List.Nodup.append hwf (List.nodup_singleton nid)
            (by
              intro a ha hb
              have : a = nid := by simpa using hb
              subst this
              exact hnotmem ha)
    · rw [countP_key, upsertAssoc_keys]
      split
      · next hmem =>
          obtain ⟨p, hp, hp1⟩ := List.any_eq_true.mp hmem
          have hk : nid ∈ t.map Prod.fst :=
            List.mem_map.mpr ⟨p, hp, by simpa using hp1⟩
          exact List.count_eq_one_of_mem hwf hk
      · next hno =>
          have hno' : t.any (fun p => p.1 == nid) = false := by
            cases hb : t.any (fun p => p.1 == nid)
            · rfl
            · exact absurd hb hno
          have hnotmem : nid ∉ t.map Prod.fst := by
            intro hmem
            obtain ⟨p, hp, hp1⟩ := List.mem_map.mp hmem
            have : t.any (fun p => p.1 == nid) = true :=
              List.any_eq_true.mpr ⟨p, hp, by simp [hp1]⟩
            rw [this] at hno'
            cases hno'
          rw [List.count_append]
          rw [List.count_eq_zero_of_not_mem hnotmem]
          simp
    · unfold upsertAssoc
      split
      · rw [List.length_map]
      · rw [List.length_append]
        rfl
  · intro i la la2 now
    show (processResults noFaults now
        (processResults noFaults now emptySt
          [⟨i, false, la⟩, ⟨i, true, la2⟩])
        [⟨i, false, la⟩, ⟨i, true, la2⟩]).reset_times
      = [(i, mkResetData now)]
    rw [processResults_cons, processNation_noFaults]
    simp only [processResults, processNation_noFaults, List.foldl_cons,
      List.foldl_nil, recordResetTime_noFaults, updateNation,
      appendScanRecord, emptySt, upsertAssoc]
    simp [upsertAssoc, mkResetData]

/-- Witness for the reset-upsert theorem at a concrete table. -/
theorem reset_upsert_idempotent_witness :
    (([] : List (Nat × ResetData)).map Prod.fst).Nodup
    ∧ (((upsertAssoc [] 7 (mkResetData 3)).map Prod.fst).Nodup
      ∧ (upsertAssoc [] 7 (mkResetData 3)).countP (fun p => p.1 == 7) = 1
      ∧ (upsertAssoc [] 7 (mkResetData 3)).length
          = if ([] : List (Nat × ResetData)).any (fun p => p.1 == 7)
            then ([] : List (Nat × ResetData)).length
            else ([] : List (Nat × ResetData)).length + 1) :=
  ⟨by simp, reset_upsert_idempotent.2.1 [] 7 (mkResetData 3) (by simp)⟩

/-- `recordResetTime` never touches scan history or last-activity. -/
lemma recordResetTime_frame (f : Faults) (now : Nat) (st : St) (nid : Nat) :
    (recordResetTime f now st nid).scan_history = st.scan_history
    ∧ (recordResetTime f now st nid).last_active = st.last_active := by
  unfold recordResetTime
  split
  · exact ⟨rfl, rfl⟩
  · exact ⟨rfl, rfl⟩

/-- A per-entity step never touches another entity's scan history or
last-activity, whatever faults occur. -/
lemma processNation_preserves (f : Faults) (now : Nat) (st : St)
    (n : Nation) (i : Nat) (hi : i ≠ n.id) :
    (processNation f now st n).1.scan_history i = st.scan_history i
    ∧ (processNation f now st n).1.last_active i = st.last_active i := by
  unfold processNation
  split
  · exact ⟨rfl, rfl⟩
  · split
    · exact ⟨rfl, rfl⟩
    · dsimp only
      split
      · split
        · refine ⟨?_, ?_⟩
          · rw [(recordResetTime_frame f now _ _).1]
            show (if i = n.id then st.scan_history i ++ [n.espionage_available]
                else st.scan_history i) = st.scan_history i
            rw [if_neg hi]
          · rw [(recordResetTime_frame f now _ _).2]
            rfl
        · refine ⟨?_, ?_⟩
          · show (if i = n.id then st.scan_history i ++ [n.espionage_available]
                else st.scan_history i) = st.scan_history i
            rw [if_neg hi]
          · rfl
      · split
        · refine ⟨?_, ?_⟩
          · show (recordResetTime f now
                (appendScanRecord st n.id n.espionage_available) n.id).scan_history i
              = st.scan_history i
            rw [(recordResetTime_frame f now _ _).1]
            show (if i = n.id then st.scan_history i ++ [n.espionage_available]
                else st.scan_history i) = st.scan_history i
            rw [if_neg hi]
          · show (if i = n.id then some n.last_active
                else (recordResetTime f now
                  (appendScanRecord st n.id n.espionage_available) n.id).last_active i)
              = st.last_active i
            rw [if_neg hi, (recordResetTime_frame f now _ _).2]
            rfl
        · refine ⟨?_, ?_⟩
          · show (if i = n.id then st.scan_history i ++ [n.espionage_available]
                else st.scan_history i) = st.scan_history i
            rw [if_neg hi]
          · show (if i = n.id then some n.last_active else st.last_active i)
              = st.last_active i
            rw [if_neg hi]

/-- A per-entity step only ever appends to the logger output. -/
lemma processNation_log_ext (f : Faults) (now : Nat) (st : St) (n : Nation) :
    ∃ ext, (processNation f now st n).1.log = st.log ++ ext := by
  unfold processNation
  split
  · exact ⟨[], by simp⟩
  · split
    · exact ⟨[], by simp⟩
    · dsimp only
      split
      · split
        · unfold recordResetTime
          split
          · exact ⟨[LogMsg.resetRecordFail n.id], by simp [appendScanRecord]⟩
          · exact ⟨[], by simp [appendScanRecord]⟩
        · exact ⟨[], by simp [appendScanRecord]⟩
      · split
        · unfold recordResetTime
          split
          · exact ⟨[LogMsg.resetRecordFail n.id],
              by simp [updateNation, appendScanRecord]⟩
          · exact ⟨[], by simp [updateNation, appendScanRecord]⟩
        · exact ⟨[], by simp [updateNation, appendScanRecord]⟩

/-- Processing a batch only ever appends to the logger output. -/
lemma processResults_log_mono (f : Faults) (now : Nat) (l : List Nation)
    (msg : LogMsg) :
    ∀ st : St, msg ∈ st.log → msg ∈ (processResults f now st l).log := by
  induction l with
  | nil => intro st h; exact h
  | cons m t ih =>
      intro st h
      rw [processResults_cons]
      obtain ⟨ext, hext⟩ := processNation_log_ext f now st m
      apply ih
      split
      · simp [hext, h]
      · simp [hext, h]

/-- The per-entity catch fires exactly when one of the three uncaught
storage operations for that entity faults. -/
lemma processNation_snd (f : Faults) (now : Nat) (st : St) (n : Nation) :
    (processNation f now st n).2
      = (f.readFail n.id || f.appendFail n.id || f.updateFail n.id) := by
  cases hr : f.readFail n.id <;> cases ha : f.appendFail n.id <;>
    cases hu : f.updateFail n.id <;> simp [processNation, hr, ha, hu]

/-- Every faulty entity of a batch gets its failure logged. -/
lemma processResults_faulty_logged (f : Faults) (now : Nat)
    (l : List Nation) (m : Nation) (hf : faultyFor f m.id) :
    ∀ st : St, m ∈ l →
      LogMsg.processFail m.id ∈ (processResults f now st l).log := by
  induction l with
  | nil => intro st hm; cases hm
  | cons a t ih =>
      intro st hm
      rw [processResults_cons]
      rcases List.mem_cons.mp hm with h1 | h1
      · subst h1
        have hsnd : (processNation f now st m).2 = true := by
          rw [processNation_snd]
          rcases hf with h | h | h <;> simp [h]
        rw [if_pos hsnd]
        apply processResults_log_mono
        simp
      · split
        · exact ih _ h1
        · exact ih _ h1

/-- The fault-free per-entity step, written out. -/
lemma processNation_noFaultsFor (f : Faults) (now : Nat) (st : St)
    (n : Nation) (h : noFaultsFor f n.id) :
    processNation f now st n =
      (updateNation
        (if (st.scan_history n.id).getLast? = some false ∧
            n.espionage_available = true then
          recordResetTime f now
            (appendScanRecord st n.id n.espionage_available) n.id
        else appendScanRecord st n.id n.espionage_available) n, false) := by
  obtain ⟨h1, h2, h3⟩ := h
  simp [processNation, h1, h2, h3]

/-- Batch processing never touches the scan history or last-activity of
an entity absent from the batch. -/
lemma processResults_preserves (f : Faults) (now : Nat) (l : List Nation)
    (i : Nat) :
    ∀ st : St, (∀ m ∈ l, m.id ≠ i) →
      (processResults f now st l).scan_history i = st.scan_history i
      ∧ (processResults f now st l).last_active i = st.last_active i := by
  induction l with
  | nil => intro st _; exact ⟨rfl, rfl⟩
  | cons a t ih =>
      intro st h
      rw [processResults_cons]
      have ha : i ≠ a.id := fun he => (h a (List.mem_cons_self a t)) he.symm
      have hp := processNation_preserves f now st a i ha
      have ht : ∀ m ∈ t, m.id ≠ i := fun m hm => h m (List.mem_cons_of_mem a hm)
      constructor
      · split
        · exact ((ih _ ht).1).trans hp.1
        · exact ((ih _ ht).1).trans hp.1
      · split
        · exact ((ih _ ht).2).trans hp.2
        · exact ((ih _ ht).2).trans hp.2

/-- C7: entities are processed independently — whatever storage faults
other entities hit, a fault-free entity anywhere in the batch still gets
its scan appended and its last-activity updated, and every entity whose
processing raised a storage exception has that failure logged at the
per-entity boundary while the loop runs to the end of the batch. -/
theorem per_entity_isolation :
    ∀ (f : Faults) (now : Nat) (st : St) (l1 l2 : List Nation) (n : Nation),
      noFaultsFor f n.id →
      (∀ m ∈ l1, m.id ≠ n.id) →
      (∀ m ∈ l2, m.id ≠ n.id) →
      ((processResults f now st (l1 ++ n :: l2)).scan_history n.id
          = st.scan_history n.id ++ [n.espionage_available]
        ∧ (processResults f now st (l1 ++ n :: l2)).last_active n.id
          = some n.last_active)
      ∧ (∀ m ∈ l1 ++ n :: l2, faultyFor f m.id →
          LogMsg.processFail m.id ∈
            (processResults f now st (l1 ++ n :: l2)).log) := by
  intro f now st l1 l2 n hn h1 h2
  constructor
  · have hsplit : processResults f now st (l1 ++ n :: l2)
        = processResults f now (processResults f now st l1) (n :: l2) := by
      unfold processResults
      rw [List.foldl_append]
    rw [hsplit, processResults_cons]
    have hpre1 := processResults_preserves f now l1 n.id st h1
    rw [processNation_noFaultsFor f now (processResults f now st l1) n hn]
    have h2' : ∀ m ∈ l2, m.id ≠ n.id := h2
    constructor
    · rw [(processResults_preserves f now l2 n.id _ h2').1]
      split
      · show (recordResetTime f now
            (appendScanRecord (processResults f now st l1) n.id
              n.espionage_available) n.id).scan_history n.id
          = st.scan_history n.id ++ [n.espionage_available]
        rw [(recordResetTime_frame f now _ _).1]
        show (if n.id = n.id then
            (processResults f now st l1).scan_history n.id ++
              [n.espionage_available]
          else (processResults f now st l1).scan_history n.id)
          = st.scan_history n.id ++ [n.espionage_available]
        rw [if_pos rfl, hpre1.1]
      · show (if n.id = n.id then
            (processResults f now st l1).scan_history n.id ++
              [n.espionage_available]
          else (processResults f now st l1).scan_history n.id)
          = st.scan_history n.id ++ [n.espionage_available]
        rw [if_pos rfl, hpre1.1]
    · rw [(processResults_preserves f now l2 n.id _ h2').2]
      show (if n.id = n.id then some n.last_active else _) = some n.last_active
      rw [if_pos rfl]
  · intro m hm hf
    exact processResults_faulty_logged f now (l1 ++ n :: l2) m hf st hm

/-- Witness for the isolation theorem: nation 2's update faults, yet
nation 1 (processed after it) is fully recorded and nation 2's failure is
logged. -/
theorem per_entity_isolation_witness :
    noFaultsFor wFaults wNationB.id
    ∧ (((processResults wFaults 0 emptySt
            ([wNationA] ++ wNationB :: [])).scan_history wNationB.id
          = emptySt.scan_history wNationB.id ++ [wNationB.espionage_available]
        ∧ (processResults wFaults 0 emptySt
            ([wNationA] ++ wNationB :: [])).last_active wNationB.id
          = some wNationB.last_active)
      ∧ (∀ m ∈ [wNationA] ++ wNationB :: [], faultyFor wFaults m.id →
          LogMsg.processFail m.id ∈
            (processResults wFaults 0 emptySt
              ([wNationA] ++ wNationB :: [])).log)) := by
  have hA : noFaultsFor wFaults wNationB.id := ⟨rfl, rfl, rfl⟩
  refine ⟨hA, per_entity_isolation wFaults 0 emptySt [wNationA] [] wNationB hA ?_ ?_⟩
  · intro m hm
    rcases List.mem_singleton.mp hm with h
    subst h
    decide
  · intro m hm
    cases hm

/-- C9: when the reset upsert is the only failing storage operation, a
detected false→true transition is consumed without error: the per-entity
step reports no exception to its caller, the scan record stays appended,
no reset row is written, the last-activity update still executes, and the
failure is logged inside `recordResetTime`. -/
theorem reset_failure_contained :
    ∀ (st : St) (now : Nat) (n : Nation),
      (st.scan_history n.id).getLast? = some false →
      n.espionage_available = true →
      (processNation (resetOnlyFaults n.id) now st n).2 = false
      ∧ (processNation (resetOnlyFaults n.id) now st n).1.scan_history n.id
          = st.scan_history n.id ++ [true]
      ∧ (processNation (resetOnlyFaults n.id) now st n).1.reset_times
          = st.reset_times
      ∧ (processNation (resetOnlyFaults n.id) now st n).1.last_active n.id
          = some n.last_active
      ∧ (processNation (resetOnlyFaults n.id) now st n).1.log
          = st.log ++ [LogMsg.resetRecordFail n.id] := by
  intro st now n hprior hflag
  have hcond : (st.scan_history n.id).getLast? = some false ∧
      n.espionage_available = true := ⟨hprior, hflag⟩
  simp [processNation, resetOnlyFaults, hcond, recordResetTime,
    appendScanRecord, updateNation, hflag]

/-- Witness for the contained-failure theorem at a concrete state. -/
theorem reset_failure_contained_witness :
    (wSt.scan_history wNationC.id).getLast? = some false
    ∧ wNationC.espionage_available = true
    ∧ ((processNation (resetOnlyFaults wNationC.id) 0 wSt wNationC).2 = false
      ∧ (processNation (resetOnlyFaults wNationC.id) 0 wSt
          wNationC).1.scan_history wNationC.id
        = wSt.scan_history wNationC.id ++ [true]
      ∧ (processNation (resetOnlyFaults wNationC.id) 0 wSt
          wNationC).1.reset_times = wSt.reset_times
      ∧ (processNation (resetOnlyFaults wNationC.id) 0 wSt
          wNationC).1.last_active wNationC.id = some wNationC.last_active
      ∧ (processNation (resetOnlyFaults wNationC.id) 0 wSt wNationC).1.log
        = wSt.log ++ [LogMsg.resetRecordFail wNationC.id]) :=
  ⟨rfl, rfl, reset_failure_contained wSt 0 wNationC rfl rfl⟩

/-- Splitting the empty id list yields no batches. -/
lemma toBatches_nil (s : Nat) : toBatches s ([] : List α) = [] := by
  cases s <;> simp [toBatches]

/-- Unfolding of the batch splitter on a nonempty list. -/
lemma toBatches_cons (s : Nat) (x : α) (xs : List α) :
    toBatches (s + 1) (x :: xs)
      = (x :: xs).take (s + 1) :: toBatches (s + 1) ((x :: xs).drop (s + 1)) := by
  simp [toBatches]

/-- Fuel-indexed form: the batches concatenate back to the input. -/
lemma toBatches_join_aux (sz : Nat) :
    ∀ (n : Nat) (l : List α), l.length ≤ n →
      (toBatches (sz + 1) l).flatten = l := by
  intro n
  induction n with
  | zero =>
      intro l hl
      have hnil : l = [] := List.eq_nil_of_length_eq_zero (Nat.le_zero.mp hl)
      subst hnil
      simp [toBatches_nil]
  | succ k ih =>
      intro l hl
      cases l with
      | nil => simp [toBatches_nil]
      | cons x xs =>
          rw [toBatches_cons]
          show (x :: xs).take (sz + 1) ++
              (toBatches (sz + 1) ((x :: xs).drop (sz + 1))).flatten
            = x :: xs
          rw [ih]
          · exact List.take_append_drop _ _
          · simp only [List.length_drop, List.length_cons] at hl ⊢
            omega

/-- The batches concatenate back to the input. -/
lemma toBatches_join (sz : Nat) (l : List α) :
    (toBatches (sz + 1) l).flatten = l :=
  toBatches_join_aux sz l.length l le_rfl

/-- Fuel-indexed form: every batch is nonempty, within the size bound,
and drawn from the input. -/
lemma toBatches_mem_aux (sz : Nat) :
    ∀ (n : Nat) (l b : List α), l.length ≤ n → b ∈ toBatches (sz + 1) l →
      b ≠ [] ∧ b.length ≤ sz + 1 ∧ ∀ x ∈ b, x ∈ l := by
  intro n
  induction n with
  | zero =>
      intro l b hl hb
      have hnil : l = [] := List.eq_nil_of_length_eq_zero (Nat.le_zero.mp hl)
      subst hnil
      rw [toBatches_nil] at hb
      cases hb
  | succ k ih =>
      intro l b hl hb
      cases l with
      | nil =>
          rw [toBatches_nil] at hb
          cases hb
      | cons x xs =>
          rw [toBatches_cons] at hb
          rcases List.mem_cons.mp hb with h | h
          · subst h
            refine ⟨by simp, ?_, ?_⟩
            · rw [List.length_take]
              exact min_le_left _ _
            · intro y hy
              exact List.take_subset _ _ hy
          · have hlen : ((x :: xs).drop (sz + 1)).length ≤ k := by
              simp only [List.length_drop, List.length_cons] at hl ⊢
              omega
            have hrec := ih _ b hlen h
            exact ⟨hrec.1, hrec.2.1,
              fun y hy => List.mem_of_mem_drop (hrec.2.2 y hy)⟩

/-- Every batch is nonempty, within the size bound, and drawn from the
input. -/
lemma toBatches_mem (sz : Nat) (l b : List α)
    (hb : b ∈ toBatches (sz + 1) l) :
    b ≠ [] ∧ b.length ≤ sz + 1 ∧ ∀ x ∈ b, x ∈ l :=
  toBatches_mem_aux sz l.length l b le_rfl hb

/-- Fuel-indexed form: batches of a duplicate-free list are pairwise
disjoint. -/
lemma toBatches_disjoint_aux (sz : Nat) :
    ∀ (n : Nat) (l : List α), l.length ≤ n → l.Nodup →
      (toBatches (sz + 1) l).Pairwise List.Disjoint := by
  intro n
  induction n with
  | zero =>
      intro l hl _
      have hnil : l = [] := List.eq_nil_of_length_eq_zero (Nat.le_zero.mp hl)
      subst hnil
      rw [toBatches_nil]
      exact List.Pairwise.nil
  | succ k ih =>
      intro l hl hnd
      cases l with
      | nil =>
          rw [toBatches_nil]
          exact List.Pairwise.nil
      | cons x xs =>
          rw [toBatches_cons]
          have hsplit : ((x :: xs).take (sz + 1) ++
              (x :: xs).drop (sz + 1)).Nodup := by
            rw [List.take_append_drop]
            exact hnd
          obtain ⟨hn1, hn2, hdisj⟩ := List.nodup_append.mp hsplit
          have hlen : ((x :: xs).drop (sz + 1)).length ≤ k := by
            simp only [List.length_drop, List.length_cons] at hl ⊢
            omega
          refine List.Pairwise.cons ?_ (ih _ hlen hn2)
          intro b hb
          intro y hy hyb
          exact hdisj hy ((toBatches_mem sz _ b hb).2.2 y hyb)

/-- Batches of a duplicate-free list are pairwise disjoint. -/
lemma toBatches_disjoint (sz : Nat) (l : List α) (h : l.Nodup) :
    (toBatches (sz + 1) l).Pairwise List.Disjoint :=
  toBatches_disjoint_aux sz l.length l le_rfl h

/-- Closed form of the batch-fetch fold: successful batches contribute
their rows in order, failed batches contribute one log entry each, and
every batch costs one call and one wait. -/
lemma fetch_fold (net : List Nat → Except String (Option (List Nation))) :
    ∀ (bs : List (List Nat)) (acc : FetchResult),
      bs.foldl (fetchBatchStep net) acc
        = ⟨acc.data ++ (bs.filterMap (fun b =>
              match net b with
              | Except.ok (some d) => some d
              | _ => none)).flatten,
           acc.logs ++ bs.filterMap (fun b =>
              match net b with
              | Except.error e => some ⟨b.take 5, e⟩
              | _ => none),
           acc.calls + bs.length,
           acc.waits + bs.length⟩ := by
  intro bs
  induction bs with
  | nil =>
      intro acc
      cases acc
      simp
  | cons b bs ih =>
      intro acc
      rw [List.foldl_cons, ih]
      cases hnet : net b with
      | ok o =>
          cases o with
          | some d =>
              simp [fetchBatchStep, hnet, List.filterMap_cons,
                List.append_assoc]
              omega
          | none =>
              simp [fetchBatchStep, hnet, List.filterMap_cons]
              omega
      | error e =>
          simp [fetchBatchStep, hnet, List.filterMap_cons,
            List.append_assoc]
          omega

/-- C4: `fetchSpecificNations` splits the ids into consecutive nonempty
sub-batches of at most 100 that concatenate back to the input; every
sub-batch is attempted (one call and one rate-limiter wait each), a
failed sub-batch contributes exactly one log entry carrying its first
five ids and no rows, and the result is the concatenation of the
successful sub-batches' rows; for a duplicate-free input the logged
prefix identifies the failed sub-batch uniquely among the batches. -/
theorem fetch_batches_isolated :
    ∀ (net : List Nat → Except String (Option (List Nation)))
      (ids : List Nat),
      (toBatches 100 ids).flatten = ids
      ∧ (∀ b ∈ toBatches 100 ids, b ≠ [] ∧ b.length ≤ 100)
      ∧ (fetchSpecificNations net ids).data
          = ((toBatches 100 ids).filterMap (fun b =>
              match net b with
              | Except.ok (some d) => some d
              | _ => none)).flatten
      ∧ (fetchSpecificNations net ids).logs
          = (toBatches 100 ids).filterMap (fun b =>
              match net b with
              | Except.error e => some ⟨b.take 5, e⟩
              | _ => none)
      ∧ (fetchSpecificNations net ids).calls = (toBatches 100 ids).length
      ∧ (fetchSpecificNations net ids).waits = (toBatches 100 ids).length
      ∧ (ids.Nodup → ∀ b1 ∈ toBatches 100 ids, ∀ b2 ∈ toBatches 100 ids,
          b1.take 5 = b2.take 5 → b1 = b2) := by
  intro net ids
  have hfold := fetch_fold net (toBatches 100 ids) ⟨[], [], 0, 0⟩
  refine ⟨toBatches_join 99 ids, ?_, ?_, ?_, ?_, ?_, ?_⟩
  · intro b hb
    have h := toBatches_mem 99 ids b hb
    exact ⟨h.1, h.2.1⟩
  · show ((toBatches 100 ids).foldl (fetchBatchStep net) ⟨[], [], 0, 0⟩).data = _
    rw [hfold]
    simp
  · show ((toBatches 100 ids).foldl (fetchBatchStep net) ⟨[], [], 0, 0⟩).logs = _
    rw [hfold]
    simp
  · show ((toBatches 100 ids).foldl (fetchBatchStep net) ⟨[], [], 0, 0⟩).calls = _
    rw [hfold]
    simp
  · show ((toBatches 100 ids).foldl (fetchBatchStep net) ⟨[], [], 0, 0⟩).waits = _
    rw [hfold]
    simp
  · intro hnd b1 hb1 b2 hb2 htake
    by_contra hne
    have hsymm : Symmetric (List.Disjoint : List Nat → List Nat → Prop) :=
      fun _ _ h => h.symm
    have hdisj : b1.Disjoint b2 :=
      (toBatches_disjoint 99 ids hnd).forall hsymm hb1 hb2 hne
    have hb1ne := (toBatches_mem 99 ids b1 hb1).1
    cases b1 with
    | nil => exact hb1ne rfl
    | cons x t1 =>
        cases b2 with
        | nil => simp at htake
        | cons y t2 =>
            have h2 : x :: t1.take 4 = y :: t2.take 4 := htake
            injection h2 with hxy _
            exact hdisj (List.mem_cons_self x t1)
              (hxy ▸ List.mem_cons_self y t2)

/-- Witness for the batching theorem: the three-id input is duplicate
free, forms the single batch `[1, 2, 3]`, and the logged-prefix
identification applies to it. -/
theorem fetch_batches_isolated_witness :
    wIds.Nodup ∧ ([1, 2, 3] : List Nat) = [1, 2, 3] := by
  have hb : toBatches 100 wIds = [[1, 2, 3]] := by
    show toBatches 100 ([1, 2, 3] : List Nat) = [[1, 2, 3]]
    rw [toBatches_cons]
    simp [toBatches_nil]
  have hnd : wIds.Nodup := by decide
  have hmem : ([1, 2, 3] : List Nat) ∈ toBatches 100 wIds := by
    rw [hb]
    exact List.mem_singleton.mpr rfl
  exact ⟨hnd,
    (fetch_batches_isolated wNet wIds).2.2.2.2.2.2 hnd
      [1, 2, 3] hmem [1, 2, 3] hmem rfl⟩

